import Mathlib

set_option maxRecDepth 10000

/-!
Shallow embedding of the Word-document merger (`src/app.py`).

The program manipulates docx documents through the python-docx API.  A
document is modelled by its ordered list of body-level elements together
with its relationship table.  Paragraphs (including headings, which in
docx are paragraphs carrying a `Heading n` style) are `para` elements;
pictures appended by `add_picture` are `pict` elements; other verbatim
body markup (tables etc.) is `raw`.  A relationship-table entry has a
type tag and the raw bytes of its target part.  Bytes are modelled as
`List Nat`.
-/

/-- A body-level element of a document. -/
inductive BodyElem where
  | para (style : String) (text : String)
  | pict (data : List Nat) (width : Nat)
  | raw (xml : String)
  deriving DecidableEq, Repr

/-- A relationship-table entry: a type tag and the target part's bytes. -/
structure DocRel where
  reltype : String
  blob : List Nat
  deriving DecidableEq, Repr

/-- A parsed document: ordered body elements plus the relationship table. -/
structure Doc where
  body : List BodyElem
  rels : List DocRel
  deriving DecidableEq, Repr

/-- The freshly created empty document (`Document()`). -/
def emptyDoc : Doc := ⟨[], []⟩

/-- Whether the character list `pat` is an initial segment of `l`. -/
def begWith : List Char → List Char → Bool
  | [], _ => true
  | _ :: _, [] => false
  | p :: ps, c :: cs => p == c && begWith ps cs

/-- Whether `pat` occurs as a contiguous sublist of `l`. -/
def subIn (pat : List Char) : List Char → Bool
  | [] => begWith pat []
  | c :: cs => begWith pat (c :: cs) || subIn pat cs

/-- Python's `pat in s` substring test on strings. -/
def pyIn (pat s : String) : Bool := subIn pat.toList s.toList

/-- Python's `s.strip()`: the string with leading and trailing whitespace
removed. -/
def pyStrip (s : String) : String :=
  String.mk
    (((s.toList.dropWhile Char.isWhitespace).reverse.dropWhile
        Char.isWhitespace).reverse)

/-- EMU value of `docx.shared.Inches(n)`. -/
def inches (n : Nat) : Nat := n * 914400

/-- The separator line `'=' * 50` appended after each merged input. -/
def sepLine : String := String.mk (List.replicate 50 '=')

/-- The relationship type tag python-docx assigns to an image part added by
`add_picture`. -/
def imageRelType : String :=
  "http://schemas.openxmlformats.org/officeDocument/2006/relationships/image"

/-- `doc.paragraphs`: the texts of the paragraph elements of the body, in
document order (headings are paragraphs too). -/
def docParagraphs (d : Doc) : List String :=
  d.body.filterMap (fun e =>
    match e with
    | .para _ t => some t
    | _ => none)

/-- `add_heading(text, level)`: appends a paragraph styled `Heading level`. -/
def add_heading (d : Doc) (text : String) (level : Nat) : Doc :=
  { d with body := d.body ++ [.para ("Heading " ++ toString level) text] }

/-- `add_paragraph(text)`: appends a plain (`Normal`-styled) paragraph. -/
def add_paragraph (d : Doc) (text : String) : Doc :=
  { d with body := d.body ++ [.para "Normal" text] }

/-- `merged_document.element.body.append(element)`: appends one body element
verbatim (the relationship table is not touched). -/
def append_body_element (d : Doc) (e : BodyElem) : Doc :=
  { d with body := d.body ++ [e] }

/-- `add_picture(stream, width)`: appends a picture element of the given
width and registers the image bytes in the relationship table. -/
def add_picture (d : Doc) (data : List Nat) (width : Nat) : Doc :=
  { body := d.body ++ [.pict data width]
    rels := d.rels ++ [⟨imageRelType, data⟩] }

/-- `get_document_preview` (src/app.py lines 11-18): iterate the first five
paragraphs, keep those whose stripped text is non-empty, join with newline. -/
def get_document_preview (d : Doc) : String :=
  String.intercalate "\n"
    (((docParagraphs d).take 5).foldl
      (fun acc t => if pyStrip t != "" then acc ++ [t] else acc) [])

/-- `get_document_images` (src/app.py lines 20-28): collect the bytes of every
relationship whose type tag contains `"image"`, in table order. -/
def get_document_images (d : Doc) : List (List Nat) :=
  d.rels.foldl
    (fun acc r => if pyIn "image" r.reltype then acc ++ [r.blob] else acc) []

/-- One iteration of the merge loop (src/app.py lines 45-70), minus the
progress-bar update and the file I/O: heading, content copy (verbatim body
elements when `keep_styles`, else non-blank paragraphs as plain text),
optional image copy at width `Inches(6)`, then the separator line and a
blank paragraph. -/
def processDoc (merged : Doc) (name : String) (doc : Doc)
    (keep_styles keep_images : Bool) : Doc :=
  let m1 := add_heading merged name 1
  let m2 :=
    if keep_styles then
      doc.body.foldl append_body_element m1
    else
      (docParagraphs doc).foldl
        (fun m t => if pyStrip t != "" then add_paragraph m t else m) m1
  let m3 :=
    if keep_images then
      (get_document_images doc).foldl
        (fun m b => add_picture m b (inches 6)) m2
    else m2
  let m4 := add_paragraph m3 sepLine
  add_paragraph m4 ""

/-- The document-level content of `merge_word_documents`: fold the per-input
step over the inputs in caller order, starting from a fresh document. -/
def mergeDocs (docs : List (String × Doc)) (keep_styles keep_images : Bool) :
    Doc :=
  docs.foldl (fun m p => processDoc m p.1 p.2 keep_styles keep_images) emptyDoc

/-!
Byte-level layer.  The code receives uploaded files, reads their bytes
(`uploaded_file.read()`), parses them with `Document(io.BytesIO(...))` —
which raises on a malformed package — resets the read cursor
(`uploaded_file.seek(0)`), and finally serializes the merged document
(`merged_document.save(...)`).  The opaque docx wire format is modelled by
a concrete executable encoding of `Doc`; buffers that are not well-formed
encodings fail to parse, exactly as malformed packages do.
-/

/-- Encoding of a string: length, then the character codes. -/
def encStr (s : String) : List Nat :=
  s.toList.length :: s.toList.map Char.toNat

/-- Encoding of one body element. -/
def encElem : BodyElem → List Nat
  | .para s t => 0 :: (encStr s ++ encStr t)
  | .pict dat w => 1 :: dat.length :: (dat ++ [w])
  | .raw x => 2 :: encStr x

/-- Encoding of one relationship entry. -/
def encRel (r : DocRel) : List Nat :=
  encStr r.reltype ++ (r.blob.length :: r.blob)

/-- Length-prefixed encoding of a list. -/
def encListWith (f : α → List Nat) (l : List α) : List Nat :=
  l.length :: (l.map f).foldr (fun a b => a ++ b) []

/-- Serialization of a document (`merged_document.save`). -/
def encodeDoc (d : Doc) : List Nat :=
  encListWith encElem d.body ++ encListWith encRel d.rels

/-- Decoder for a string; returns the rest of the input. -/
def decStr : List Nat → Option (String × List Nat)
  | [] => none
  | n :: rest =>
    if n ≤ rest.length then
      some (String.mk ((rest.take n).map Char.ofNat), rest.drop n)
    else none

/-- Decoder for one body element. -/
def decElem : List Nat → Option (BodyElem × List Nat)
  | 0 :: rest =>
    match decStr rest with
    | none => none
    | some (s, r1) =>
      match decStr r1 with
      | none => none
      | some (t, r2) => some (.para s t, r2)
  | 1 :: len :: rest =>
    if len ≤ rest.length then
      match rest.drop len with
      | [] => none
      | w :: r2 => some (.pict (rest.take len) w, r2)
    else none
  | 2 :: rest =>
    match decStr rest with
    | none => none
    | some (x, r1) => some (.raw x, r1)
  | _ => none

/-- Decoder for one relationship entry. -/
def decRel (b : List Nat) : Option (DocRel × List Nat) :=
  match decStr b with
  | none => none
  | some (s, r1) =>
    match r1 with
    | [] => none
    | len :: r2 =>
      if len ≤ r2.length then some (⟨s, r2.take len⟩, r2.drop len) else none

/-- Decoder for `n` consecutive items. -/
def decListAux (f : List Nat → Option (α × List Nat)) :
    Nat → List Nat → Option (List α × List Nat)
  | 0, b => some ([], b)
  | n + 1, b =>
    match f b with
    | none => none
    | some (a, r) =>
      match decListAux f n r with
      | none => none
      | some (as, r2) => some (a :: as, r2)

/-- Decoder for a length-prefixed list. -/
def decList (f : List Nat → Option (α × List Nat)) :
    List Nat → Option (List α × List Nat)
  | [] => none
  | n :: rest => decListAux f n rest

/-- Parsing a byte buffer into a document (`Document(io.BytesIO(content))`);
`none` models the parse exception raised on a malformed package.  The
whole buffer must be consumed. -/
def decodeDoc (b : List Nat) : Option Doc :=
  match decList decElem b with
  | none => none
  | some (body, r1) =>
    match decList decRel r1 with
    | some (rels, []) => some ⟨body, rels⟩
    | _ => none

/-- An uploaded file: display name, content bytes, and read-cursor position. -/
structure UploadedFile where
  name : String
  content : List Nat
  pos : Nat
  deriving DecidableEq, Repr

/-- `uploaded_file.read()`: returns the bytes from the cursor on and leaves
the cursor at the end of the file. -/
def fileRead (f : UploadedFile) : List Nat × UploadedFile :=
  (f.content.drop f.pos, { f with pos := f.content.length })

/-- `uploaded_file.seek(0)`: resets the read cursor. -/
def fileSeek0 (f : UploadedFile) : UploadedFile := { f with pos := 0 }

/-- Externally visible events of one merge call: a progress-bar update
`progress(num/den)` and the completion of one input's processing. -/
inductive Event where
  | progress (num den : Nat)
  | processed (idx : Nat)
  deriving DecidableEq, Repr

/-- Failure of the merge: input number `idx` did not parse as a document
package (the exception raised by `Document(...)` aborts the call while
processing that input). -/
inductive MergeError where
  | malformedInput (idx : Nat)
  deriving DecidableEq, Repr

instance {ε α : Type _} [DecidableEq ε] [DecidableEq α] :
    DecidableEq (Except ε α) := fun a b =>
  match a, b with
  | .ok a, .ok b => decidable_of_iff (a = b) (by simp)
  | .error e, .error f => decidable_of_iff (e = f) (by simp)
  | .ok _, .error _ => isFalse (by simp)
  | .error _, .ok _ => isFalse (by simp)

/-- The merge loop (src/app.py lines 35-70): per file, in order — progress
update (when a bar was supplied) reporting `(idx+1)/total`, read, parse
(abort on failure), process the document, reset the file cursor. -/
def mergeAux (total : Nat) (keep_styles keep_images bar : Bool) :
    Nat → Doc → List UploadedFile → List Event → List UploadedFile →
    Except MergeError (List Nat × List UploadedFile × List Event)
  | _, acc, done, evs, [] => .ok (encodeDoc acc, done, evs)
  | idx, acc, done, evs, f :: rest =>
    let evs1 := if bar then evs ++ [.progress (idx + 1) total] else evs
    let rd := fileRead f
    match decodeDoc rd.1 with
    | none => .error (.malformedInput idx)
    | some doc =>
      mergeAux total keep_styles keep_images bar (idx + 1)
        (processDoc acc f.name doc keep_styles keep_images)
        (done ++ [fileSeek0 rd.2]) (evs1 ++ [.processed idx]) rest

/-- `merge_word_documents` (src/app.py lines 30-74): full merge over the
uploaded files, returning the serialized output bytes, the final file
states, and the event trace — or the parse failure that aborted it. -/
def merge_word_documents (files : List UploadedFile)
    (keep_styles keep_images bar : Bool) :
    Except MergeError (List Nat × List UploadedFile × List Event) :=
  mergeAux files.length keep_styles keep_images bar 0 emptyDoc [] [] files

/-- Index of the first input whose buffer fails to parse, if any. -/
def firstNoneIdx : List UploadedFile → Option Nat
  | [] => none
  | f :: rest =>
    match decodeDoc f.content with
    | none => some 0
    | some _ => (firstNoneIdx rest).map (· + 1)

/-- The serialized output of a merge result, if it succeeded. -/
def resultBytes : Except MergeError (List Nat × List UploadedFile × List Event) →
    Option (List Nat)
  | .ok (b, _, _) => some b
  | .error _ => none

/-- The final file states of a merge result, if it succeeded. -/
def resultFiles : Except MergeError (List Nat × List UploadedFile × List Event) →
    Option (List UploadedFile)
  | .ok (_, fs, _) => some fs
  | .error _ => none

/-- The event trace of a merge result, if it succeeded. -/
def resultEvents : Except MergeError (List Nat × List UploadedFile × List Event) →
    Option (List Event)
  | .ok (_, _, evs) => some evs
  | .error _ => none

/-- The event trace the loop emits for inputs `idx, idx+1, ...` (`n` of
them) out of `total`: progress first (when a bar is supplied), then the
completion of that input. -/
def traceFrom (bar : Bool) (total : Nat) : Nat → Nat → List Event
  | _, 0 => []
  | idx, n + 1 =>
    (if bar then [Event.progress (idx + 1) total] else []) ++
      [Event.processed idx] ++ traceFrom bar total (idx + 1) n

/-!
Specification-side characterization of the merge: the output body is the
concatenation, over the inputs in order, of one block per input — heading,
content copy, image copies, separator line, blank paragraph.
-/

/-- Concatenation of a list of lists. -/
def listCat : List (List α) → List α
  | [] => []
  | l :: ls => l ++ listCat ls

/-- The content-copy step's elements for one input: the verbatim body when
styles are kept, else the non-blank paragraphs as plain text. -/
def contentElems (keep_styles : Bool) (d : Doc) : List BodyElem :=
  if keep_styles then d.body
  else ((docParagraphs d).filter (fun t => pyStrip t != "")).map
    (fun t => .para "Normal" t)

/-- The image-copy step's elements for one input. -/
def picElems (keep_images : Bool) (d : Doc) : List BodyElem :=
  if keep_images then
    (get_document_images d).map (fun b => .pict b (inches 6))
  else []

/-- The relationship entries the image-copy step registers for one input. -/
def relsAdded (keep_images : Bool) (d : Doc) : List DocRel :=
  if keep_images then
    (get_document_images d).map (fun b => ⟨imageRelType, b⟩)
  else []

/-- The full block of output elements one input contributes. -/
def blockOf (keep_styles keep_images : Bool) (p : String × Doc) :
    List BodyElem :=
  .para "Heading 1" p.1 ::
    (contentElems keep_styles p.2 ++ picElems keep_images p.2 ++
      [.para "Normal" sepLine, .para "Normal" ""])

theorem foldl_filter_snoc {α β : Type _} (p : α → Bool) (f : α → β)
    (l : List α) (init : List β) :
    l.foldl (fun acc a => if p a then acc ++ [f a] else acc) init =
      init ++ (l.filter p).map f := by
  induction l generalizing init with
  | nil => simp
  | cons a l ih =>
    cases hp : p a <;> simp [hp, ih, List.filter_cons]

theorem foldl_append_body (l : List BodyElem) (m : Doc) :
    l.foldl append_body_element m = ⟨m.body ++ l, m.rels⟩ := by
  induction l generalizing m with
  | nil => simp
  | cons a l ih => simp [append_body_element, ih]

theorem foldl_add_paragraph_filter (l : List String) (m : Doc) :
    l.foldl (fun m t => if pyStrip t != "" then add_paragraph m t else m) m =
      ⟨m.body ++ (l.filter (fun t => pyStrip t != "")).map
        (fun t => .para "Normal" t), m.rels⟩ := by
  induction l generalizing m with
  | nil => simp
  | cons a l ih =>
    rw [List.foldl_cons, ih, List.filter_cons]
    cases hp : pyStrip a != "" <;> simp [hp, add_paragraph]

theorem foldl_add_picture (bs : List (List Nat)) (m : Doc) :
    bs.foldl (fun m b => add_picture m b (inches 6)) m =
      ⟨m.body ++ bs.map (fun b => .pict b (inches 6)),
        m.rels ++ bs.map (fun b => ⟨imageRelType, b⟩)⟩ := by
  induction bs generalizing m with
  | nil => simp
  | cons b bs ih =>
    rw [List.foldl_cons, ih]
    simp [add_picture]

theorem headingStyleOne : "Heading " ++ toString 1 = "Heading 1" := by decide

theorem processDoc_eq (m : Doc) (n : String) (d : Doc) (ks ki : Bool) :
    processDoc m n d ks ki =
      ⟨m.body ++ blockOf ks ki (n, d), m.rels ++ relsAdded ki d⟩ := by
  cases ks <;> cases ki
  · show add_paragraph (add_paragraph ((docParagraphs d).foldl
        (fun m t => if pyStrip t != "" then add_paragraph m t else m)
        (add_heading m n 1)) sepLine) "" = _
    rw [foldl_add_paragraph_filter]
    simp [add_heading, add_paragraph, blockOf, contentElems, picElems,
      relsAdded, headingStyleOne]
  · show add_paragraph (add_paragraph ((get_document_images d).foldl
        (fun m b => add_picture m b (inches 6))
        ((docParagraphs d).foldl
          (fun m t => if pyStrip t != "" then add_paragraph m t else m)
          (add_heading m n 1))) sepLine) "" = _
    rw [foldl_add_picture, foldl_add_paragraph_filter]
    simp [add_heading, add_paragraph, blockOf, contentElems, picElems,
      relsAdded, headingStyleOne]
  · show add_paragraph (add_paragraph (d.body.foldl append_body_element
        (add_heading m n 1)) sepLine) "" = _
    rw [foldl_append_body]
    simp [add_heading, add_paragraph, blockOf, contentElems, picElems,
      relsAdded, headingStyleOne]
  · show add_paragraph (add_paragraph ((get_document_images d).foldl
        (fun m b => add_picture m b (inches 6))
        (d.body.foldl append_body_element (add_heading m n 1))) sepLine) "" = _
    rw [foldl_add_picture, foldl_append_body]
    simp [add_heading, add_paragraph, blockOf, contentElems, picElems,
      relsAdded, headingStyleOne]

theorem mergeDocs_from (docs : List (String × Doc)) (ks ki : Bool) (m : Doc) :
    docs.foldl (fun m p => processDoc m p.1 p.2 ks ki) m =
      ⟨m.body ++ listCat (docs.map (blockOf ks ki)),
        m.rels ++ listCat (docs.map (fun p => relsAdded ki p.2))⟩ := by
  induction docs generalizing m with
  | nil => simp [listCat]
  | cons p docs ih =>
    rw [List.foldl_cons, ih]
    simp [processDoc_eq, listCat]

/-- Structural characterization of the merged document. -/
theorem mergeDocs_spec (docs : List (String × Doc)) (ks ki : Bool) :
    mergeDocs docs ks ki =
      ⟨listCat (docs.map (blockOf ks ki)),
        listCat (docs.map (fun p => relsAdded ki p.2))⟩ := by
  simp [mergeDocs, mergeDocs_from, emptyDoc]

/-!
Observations on merged bodies: level-1 heading sequence and separator
occurrences (a separator paragraph immediately followed by a blank
paragraph).
-/

/-- The texts of the level-1 headings of a body, in order. -/
def h1Texts (body : List BodyElem) : List String :=
  body.filterMap (fun e =>
    match e with
    | .para s t => if s == "Heading 1" then some t else none
    | _ => none)

/-- Whether an element is the separator paragraph the merge appends: a
plain paragraph whose text is the 50-character rule line. -/
def isSepPara : BodyElem → Bool
  | .para s t => s == "Normal" && t == sepLine
  | _ => false

/-- Whether an element is a paragraph that is blank after stripping. -/
def isBlankPara : BodyElem → Bool
  | .para _ t => pyStrip t == ""
  | _ => false

/-- Number of separator occurrences in a body: positions where a separator
paragraph is immediately followed by a blank paragraph. -/
def sepCount : List BodyElem → Nat
  | [] => 0
  | [_] => 0
  | a :: b :: rest =>
    (if isSepPara a && isBlankPara b then 1 else 0) + sepCount (b :: rest)

theorem sepCount_cons_cons (a b : BodyElem) (rest : List BodyElem) :
    sepCount (a :: b :: rest) =
      (if isSepPara a && isBlankPara b then 1 else 0) + sepCount (b :: rest) :=
  rfl

theorem sepCount_eq_zero_of_no_blank :
    ∀ l : List BodyElem, (∀ e ∈ l, isBlankPara e = false) → sepCount l = 0 := by
  intro l
  induction l with
  | nil => intro h; rfl
  | cons a l ih =>
    intro h
    cases l with
    | nil => rfl
    | cons b l2 =>
      rw [sepCount_cons_cons]
      have hb : isBlankPara b = false := h b (by simp)
      rw [ih (fun e he => h e (by simp [he]))]
      simp [hb]

theorem sepCount_append_of_head_not_blank :
    ∀ l m : List BodyElem,
      (∀ b, m.head? = some b → isBlankPara b = false) →
      sepCount (l ++ m) = sepCount l + sepCount m := by
  intro l
  induction l with
  | nil => intro m _; simp [sepCount]
  | cons a l ih =>
    intro m hm
    cases l with
    | nil =>
      cases m with
      | nil => simp [sepCount]
      | cons b m2 =>
        have hb : isBlankPara b = false := hm b rfl
        simp [sepCount_cons_cons, hb, sepCount]
    | cons c l2 =>
      have ihh := ih m hm
      simp only [List.cons_append] at ihh ⊢
      rw [sepCount_cons_cons, sepCount_cons_cons, ihh]
      omega

theorem sepCount_append_of_last_not_sep :
    ∀ l m : List BodyElem,
      (∀ a, l.getLast? = some a → isSepPara a = false) →
      sepCount (l ++ m) = sepCount l + sepCount m := by
  intro l
  induction l with
  | nil => intro m _; simp [sepCount]
  | cons a l ih =>
    intro m hl
    cases l with
    | nil =>
      have ha : isSepPara a = false := hl a rfl
      cases m with
      | nil => simp [sepCount]
      | cons b m2 => simp [sepCount_cons_cons, ha, sepCount]
    | cons c l2 =>
      have hl2 : ∀ x, (c :: l2).getLast? = some x → isSepPara x = false := by
        intro x hx
        exact hl x (by rw [List.getLast?_cons_cons]; exact hx)
      have ihh := ih m hl2
      simp only [List.cons_append] at ihh ⊢
      rw [sepCount_cons_cons, sepCount_cons_cons, ihh]
      omega

theorem getLast?_append_pair (l : List α) (x y : α) :
    (l ++ [x, y]).getLast? = some y := by
  have h : l ++ [x, y] = (l ++ [x]) ++ [y] := by simp
  rw [h, List.getLast?_concat]

theorem foldl_filter_snoc_id {α : Type _} (p : α → Bool) (l : List α)
    (init : List α) :
    l.foldl (fun acc a => if p a then acc ++ [a] else acc) init =
      init ++ l.filter p := by
  induction l generalizing init with
  | nil => simp
  | cons a l ih =>
    cases hp : p a <;> simp [hp, ih, List.filter_cons]

/-- `get_document_images` in filter/map form. -/
theorem gdi_spec (d : Doc) :
    get_document_images d =
      (d.rels.filter (fun r => pyIn "image" r.reltype)).map
        (fun r => r.blob) := by
  rw [get_document_images, foldl_filter_snoc]
  simp

/-- C6: extractPreview iterates only the first 5 paragraphs in document
order, keeps those whose stripped text is non-empty, and newline-joins
them (it is total, so documents with fewer than 5 paragraphs, or none,
raise no error); on a document whose 7 paragraphs are all non-blank it
returns only the first 5, newline-joined, in order. -/
theorem c6_preview :
    (∀ d : Doc, get_document_preview d =
      String.intercalate "\n"
        (((docParagraphs d).take 5).filter (fun t => pyStrip t != ""))) ∧
    (∀ d : Doc, (docParagraphs d).length = 7 →
      (∀ t ∈ docParagraphs d, pyStrip t != "") →
      get_document_preview d =
        String.intercalate "\n" ((docParagraphs d).take 5)) := by
  constructor
  · intro d
    rw [get_document_preview, foldl_filter_snoc_id]
    simp
  · intro d _ hnb
    rw [get_document_preview, foldl_filter_snoc_id]
    rw [List.filter_eq_self.mpr
      (fun t ht => hnb t (List.take_subset 5 (docParagraphs d) ht))]
    simp

/-- Document with seven non-blank paragraphs, for the preview claim. -/
def previewDoc7 : Doc :=
  ⟨[.para "Normal" "a", .para "Normal" "b", .para "Normal" "c",
    .para "Normal" "d", .para "Normal" "e", .para "Normal" "f",
    .para "Normal" "g"], []⟩

theorem c6_preview_witness :
    (docParagraphs previewDoc7).length = 7 ∧
      get_document_preview previewDoc7 = "a\nb\nc\nd\ne" := by
  refine ⟨by decide, ?_⟩
  rw [c6_preview.2 previewDoc7 (by decide) (by decide)]
  decide

/-- C5: extractImages returns the raw bytes of exactly the relationship
entries whose type tag contains "image", in relationship-table order with
no deduplication (empty if none); and a merge with preserveImages=true
appends exactly those images, in that order, as new picture elements of
width `Inches(6)` between the input's content block and its separator. -/
theorem c5_images :
    (∀ d : Doc, get_document_images d =
      (d.rels.filter (fun r => pyIn "image" r.reltype)).map
        (fun r => r.blob)) ∧
    (∀ (n : String) (d : Doc) (ks : Bool),
      (mergeDocs [(n, d)] ks true).body =
        .para "Heading 1" n ::
          (contentElems ks d ++
            (get_document_images d).map (fun b => .pict b (inches 6)) ++
            [.para "Normal" sepLine, .para "Normal" ""])) := by
  constructor
  · exact gdi_spec
  · intro n d ks
    rw [mergeDocs_spec]
    simp [listCat, blockOf, picElems]

/-- C4: an input whose paragraph texts are `["Hello", "   ", "World"]`,
merged with preserveStyles=false, contributes exactly the two plain-text
paragraphs "Hello" and "World", in that order, as its content block;
the whitespace-only paragraph is excluded. -/
theorem c4_blank_exclusion (n : String) (d : Doc) (ki : Bool)
    (h : docParagraphs d = ["Hello", "   ", "World"]) :
    (mergeDocs [(n, d)] false ki).body =
      .para "Heading 1" n ::
        ([.para "Normal" "Hello", .para "Normal" "World"] ++
          picElems ki d ++ [.para "Normal" sepLine, .para "Normal" ""]) := by
  have hc : contentElems false d =
      [.para "Normal" "Hello", .para "Normal" "World"] := by
    simp [contentElems, h]
    decide
  rw [mergeDocs_spec]
  simp [listCat, blockOf, hc]

/-- Document with paragraphs "Hello", whitespace, "World". -/
def helloDoc : Doc :=
  ⟨[.para "Normal" "Hello", .para "Normal" "   ", .para "Normal" "World"],
    []⟩

theorem c4_blank_exclusion_witness :
    docParagraphs helloDoc = ["Hello", "   ", "World"] ∧
      (mergeDocs [("in.docx", helloDoc)] false false).body =
        .para "Heading 1" "in.docx" ::
          ([.para "Normal" "Hello", .para "Normal" "World"] ++
            picElems false helloDoc ++
            [.para "Normal" sepLine, .para "Normal" ""]) :=
  ⟨by decide, c4_blank_exclusion "in.docx" helloDoc false (by decide)⟩

/-- Document consisting only of one embedded image relationship. -/
def oneImageDoc : Doc := ⟨[], [⟨imageRelType, [7]⟩]⟩

/-- C1 counterexample: for a single input holding one embedded image,
merging with both options true and then removing the prepended heading
and the appended separator line and blank paragraph does NOT recover the
input's body — the picture element appended by the image-copy step
remains. -/
theorem c1_counterexample :
    (((mergeDocs [("a.docx", oneImageDoc)] true true).body.drop
        1).dropLast.dropLast) ≠ oneImageDoc.body := by decide

/-- C1 (amended): merging a single input with preserveStyles=true and
preserveImages=true yields a body that is exactly the heading, then the
input's body verbatim, then the input's images as picture elements, then
the separator line and blank paragraph — so the body is structurally
equivalent to the input's body once the prepended heading, the appended
picture elements, and the appended separator line and blank paragraph are
all ignored — and the output's embedded images equal the input's embedded
images in the same order. -/
theorem c1_roundtrip_amended (n : String) (d : Doc) :
    (mergeDocs [(n, d)] true true).body =
      .para "Heading 1" n ::
        (d.body ++
          (get_document_images d).map (fun b => .pict b (inches 6)) ++
          [.para "Normal" sepLine, .para "Normal" ""]) ∧
    get_document_images (mergeDocs [(n, d)] true true) =
      get_document_images d := by
  have himg : pyIn "image" imageRelType = true := by decide
  constructor
  · rw [mergeDocs_spec]
    simp [listCat, blockOf, contentElems, picElems]
  · rw [mergeDocs_spec]
    simp [gdi_spec, listCat, relsAdded, List.filter_map, Function.comp,
      himg]

theorem h1Texts_append (l m : List BodyElem) :
    h1Texts (l ++ m) = h1Texts l ++ h1Texts m := by
  simp [h1Texts]

theorem h1Texts_blockOf (ks ki : Bool) (p : String × Doc)
    (h : ks = true → h1Texts p.2.body = []) :
    h1Texts (blockOf ks ki p) = [p.1] := by
  have hsn : ("Normal" == "Heading 1") = false := by decide
  have hpics : h1Texts (picElems ki p.2) = [] := by
    cases ki <;> simp [picElems, h1Texts, List.filterMap_map, Function.comp]
  have hcontent : h1Texts (contentElems ks p.2) = [] := by
    cases ks
    · simp [contentElems, h1Texts, List.filterMap_map, Function.comp, hsn]
    · simpa [contentElems] using h rfl
  rw [blockOf, show (BodyElem.para "Heading 1" p.1 ::
      (contentElems ks p.2 ++ picElems ki p.2 ++
        [BodyElem.para "Normal" sepLine, BodyElem.para "Normal" ""])) =
      [BodyElem.para "Heading 1" p.1] ++
        (contentElems ks p.2 ++ picElems ki p.2 ++
          [BodyElem.para "Normal" sepLine, BodyElem.para "Normal" ""])
    from rfl]
  rw [h1Texts_append, h1Texts_append, h1Texts_append, hpics, hcontent]
  simp [h1Texts, hsn]

/-- Document whose body already contains a level-1 heading. -/
def headedDoc : Doc := ⟨[.para "Heading 1" "X"], []⟩

/-- C2 counterexample: with preserveStyles=true, an input whose own body
contains a level-1 heading is copied verbatim, so the merged output's
level-1 heading sequence is longer than the list of display names. -/
theorem c2_counterexample :
    h1Texts (mergeDocs [("a.docx", headedDoc)] true false).body ≠
      ["a.docx"] := by decide

/-- C2 (amended): for every non-empty input list and any options, provided
that when preserveStyles=true no input's body itself contains a level-1
heading element, the sequence of level-1 headings in the merged output
equals the inputs' display names in caller order, one heading prepended
before each input's content. -/
theorem c2_headings_amended (docs : List (String × Doc)) (ks ki : Bool)
    (hne : docs ≠ [])
    (h : ks = true → ∀ p ∈ docs, h1Texts p.2.body = []) :
    h1Texts (mergeDocs docs ks ki).body = docs.map (fun p => p.1) := by
  rw [mergeDocs_spec]
  clear hne
  show h1Texts (listCat (docs.map (blockOf ks ki))) = docs.map (fun p => p.1)
  induction docs with
  | nil => simp [listCat, h1Texts]
  | cons p docs ih =>
    have hp : ks = true → h1Texts p.2.body = [] :=
      fun hk => h hk p (by simp)
    have hrest : ks = true → ∀ q ∈ docs, h1Texts q.2.body = [] :=
      fun hk q hq => h hk q (by simp [hq])
    simp only [List.map_cons, listCat]
    rw [h1Texts_append, h1Texts_blockOf ks ki p hp, ih hrest]
    rfl

/-- Plain one-paragraph document. -/
def plainDoc : Doc := ⟨[.para "Normal" "x"], []⟩

theorem c2_headings_amended_witness :
    ([("a.docx", plainDoc)] ≠ ([] : List (String × Doc))) ∧
      h1Texts (mergeDocs [("a.docx", plainDoc)] true false).body =
        ["a.docx"] :=
  ⟨by decide,
    c2_headings_amended [("a.docx", plainDoc)] true false (by decide)
      (by decide)⟩

theorem blockOf_getLast (ks ki : Bool) (p : String × Doc) :
    (blockOf ks ki p).getLast? = some (.para "Normal" "") := by
  rw [blockOf, show (BodyElem.para "Heading 1" p.1 ::
      (contentElems ks p.2 ++ picElems ki p.2 ++
        [BodyElem.para "Normal" sepLine, BodyElem.para "Normal" ""])) =
      (BodyElem.para "Heading 1" p.1 ::
        (contentElems ks p.2 ++ picElems ki p.2)) ++
        [BodyElem.para "Normal" sepLine, BodyElem.para "Normal" ""]
    from by simp]
  rw [getLast?_append_pair]

theorem picElems_not_blank (ki : Bool) (d : Doc) :
    ∀ e ∈ picElems ki d, isBlankPara e = false := by
  intro e he
  cases ki
  · simp [picElems] at he
  · simp [picElems] at he
    obtain ⟨b, _, rfl⟩ := he
    rfl

theorem sepCount_blockOf (ks ki : Bool) (p : String × Doc)
    (h : ks = true → sepCount p.2.body = 0) :
    sepCount (blockOf ks ki p) = 1 := by
  have hsep_nb : isBlankPara (.para "Normal" sepLine) = false := by decide
  have hpair :
      sepCount [BodyElem.para "Normal" sepLine, .para "Normal" ""] = 1 := by
    decide
  have hsb : ∀ b,
      ([BodyElem.para "Normal" sepLine,
        BodyElem.para "Normal" ""]).head? = some b →
      isBlankPara b = false := by
    intro b hb
    cases hb
    exact hsep_nb
  have hpics_chunk :
      sepCount (picElems ki p.2 ++
        [BodyElem.para "Normal" sepLine, BodyElem.para "Normal" ""]) = 1 := by
    rw [sepCount_append_of_head_not_blank _ _ hsb]
    rw [sepCount_eq_zero_of_no_blank _ (picElems_not_blank ki p.2), hpair]
  have hXhead : ∀ b,
      (picElems ki p.2 ++
        [BodyElem.para "Normal" sepLine,
          BodyElem.para "Normal" ""]).head? = some b →
      isBlankPara b = false := by
    intro b hb
    cases hpe : picElems ki p.2 with
    | nil =>
      rw [hpe] at hb
      exact hsb b hb
    | cons x xs =>
      rw [hpe] at hb
      simp only [List.cons_append, List.head?_cons, Option.some.injEq] at hb
      subst hb
      exact picElems_not_blank ki p.2 x (by rw [hpe]; simp)
  have hcontent : sepCount (contentElems ks p.2) = 0 := by
    cases ks
    · apply sepCount_eq_zero_of_no_blank
      intro e he
      simp [contentElems] at he
      obtain ⟨t, ht, rfl⟩ := he
      simp [isBlankPara]
      exact ht.2
    · simpa [contentElems] using h rfl
  have hhead : ∀ a,
      ([BodyElem.para "Heading 1" p.1]).getLast? = some a →
      isSepPara a = false := by
    intro a ha
    cases ha
    have hh : ("Heading 1" == "Normal") = false := by decide
    simp [isSepPara, hh]
  rw [blockOf, show (BodyElem.para "Heading 1" p.1 ::
      (contentElems ks p.2 ++ picElems ki p.2 ++
        [BodyElem.para "Normal" sepLine, BodyElem.para "Normal" ""])) =
      [BodyElem.para "Heading 1" p.1] ++
        (contentElems ks p.2 ++ (picElems ki p.2 ++
          [BodyElem.para "Normal" sepLine, BodyElem.para "Normal" ""]))
    from by simp]
  rw [sepCount_append_of_last_not_sep _ _ hhead]
  rw [sepCount_append_of_head_not_blank _ _ hXhead]
  rw [hcontent, hpics_chunk]
  rfl

/-- Document whose own body contains the separator pattern. -/
def sepTrickDoc : Doc :=
  ⟨[.para "Normal" sepLine, .para "Normal" ""], []⟩

/-- C7 counterexample: with preserveStyles=true, an input whose body
already contains a 50-character rule paragraph immediately followed by a
blank paragraph is copied verbatim, so merging this one input yields two
separator occurrences, not one. -/
theorem c7_counterexample :
    sepCount (mergeDocs [("a.docx", sepTrickDoc)] true false).body ≠ 1 := by
  decide

/-- C7 (amended): merging N inputs (N ≥ 1), provided that when
preserveStyles=true no input's body itself contains a separator
occurrence (a rule-line paragraph immediately followed by a blank
paragraph), produces exactly N separator occurrences — one 50-character
rule line immediately followed by one blank paragraph appended after each
input's content block (and after its images, when copied). -/
theorem c7_separators_amended (docs : List (String × Doc)) (ks ki : Bool)
    (hne : docs ≠ [])
    (h : ks = true → ∀ p ∈ docs, sepCount p.2.body = 0) :
    sepCount (mergeDocs docs ks ki).body = docs.length := by
  rw [mergeDocs_spec]
  clear hne
  show sepCount (listCat (docs.map (blockOf ks ki))) = docs.length
  induction docs with
  | nil => rfl
  | cons p docs ih =>
    have hp : ks = true → sepCount p.2.body = 0 :=
      fun hk => h hk p (by simp)
    have hrest : ks = true → ∀ q ∈ docs, sepCount q.2.body = 0 :=
      fun hk q hq => h hk q (by simp [hq])
    have hlast : ∀ a, (blockOf ks ki p).getLast? = some a →
        isSepPara a = false := by
      intro a ha
      rw [blockOf_getLast] at ha
      cases ha
      decide
    simp only [List.map_cons, listCat]
    rw [sepCount_append_of_last_not_sep _ _ hlast,
      sepCount_blockOf ks ki p hp, ih hrest]
    simp [Nat.add_comm]

theorem c7_separators_amended_witness :
    ([("a.docx", plainDoc), ("b.docx", plainDoc)] ≠
        ([] : List (String × Doc))) ∧
      sepCount (mergeDocs [("a.docx", plainDoc), ("b.docx", plainDoc)]
        true true).body = 2 :=
  ⟨by decide,
    c7_separators_amended [("a.docx", plainDoc), ("b.docx", plainDoc)]
      true true (by decide) (by decide)⟩

theorem fileSeek0_read (f : UploadedFile) :
    fileSeek0 (fileRead f).2 = { f with pos := 0 } := rfl

theorem mergeAux_ok_files (total : Nat) (ks ki bar : Bool) :
    ∀ (rest : List UploadedFile) (idx : Nat) (acc : Doc)
      (done : List UploadedFile) (evs : List Event) (b : List Nat)
      (fs : List UploadedFile) (tr : List Event),
      mergeAux total ks ki bar idx acc done evs rest = .ok (b, fs, tr) →
      fs = done ++ rest.map (fun f => { f with pos := 0 }) := by
  intro rest
  induction rest with
  | nil =>
    intro idx acc done evs b fs tr h
    simp only [mergeAux, Except.ok.injEq, Prod.mk.injEq] at h
    obtain ⟨-, hfs, -⟩ := h
    simp [← hfs]
  | cons f rest ih =>
    intro idx acc done evs b fs tr h
    simp only [mergeAux] at h
    cases hdec : decodeDoc (fileRead f).1 with
    | none =>
      simp only [hdec] at h
      exact Except.noConfusion h
    | some doc =>
      simp only [hdec] at h
      rw [ih _ _ _ _ _ _ _ h, fileSeek0_read]
      simp

theorem mergeAux_ok_full (total : Nat) (ks ki bar : Bool) :
    ∀ (rest : List UploadedFile) (idx : Nat) (acc : Doc)
      (done : List UploadedFile) (evs : List Event),
      (∀ f ∈ rest, f.pos = 0 ∧ (decodeDoc f.content).isSome) →
      mergeAux total ks ki bar idx acc done evs rest =
        .ok (encodeDoc (rest.foldl
            (fun m f => processDoc m f.name
              ((decodeDoc f.content).getD emptyDoc) ks ki) acc),
          done ++ rest.map (fun f => { f with pos := 0 }),
          evs ++ traceFrom bar total idx rest.length) := by
  intro rest
  induction rest with
  | nil =>
    intro idx acc done evs _
    simp [mergeAux, traceFrom]
  | cons f rest ih =>
    intro idx acc done evs h
    obtain ⟨hpos, hsome⟩ := h f (by simp)
    obtain ⟨doc, hdoc⟩ := Option.isSome_iff_exists.mp hsome
    have hrest : ∀ g ∈ rest, g.pos = 0 ∧ (decodeDoc g.content).isSome :=
      fun g hg => h g (by simp [hg])
    have hread : (fileRead f).1 = f.content := by
      simp [fileRead, hpos]
    simp only [mergeAux, hread, hdoc]
    rw [ih _ _ _ _ hrest]
    cases bar <;>
      simp [traceFrom, hdoc, fileSeek0_read, List.append_assoc]

/-- C8: the merge never alters an input's name or content bytes, and on a
successful merge every input's read cursor, advanced while its bytes were
read, has been reset to 0, so the inputs can be reused (the preview and
image accessors are pure functions of the content and mutate nothing by
construction). -/
theorem c8_no_mutation (files : List UploadedFile) (ks ki bar : Bool)
    (b : List Nat) (fs : List UploadedFile) (tr : List Event)
    (h : merge_word_documents files ks ki bar = .ok (b, fs, tr)) :
    fs = files.map (fun f => { f with pos := 0 }) := by
  have hfs := mergeAux_ok_files files.length ks ki bar files 0 emptyDoc
    [] [] b fs tr h
  simpa using hfs

/-- Uploaded file with one well-formed one-paragraph document. -/
def hiFile : UploadedFile :=
  ⟨"a.docx", encodeDoc ⟨[.para "Normal" "Hi"], []⟩, 0⟩

/-- Serialized output of merging `hiFile` alone with both options set. -/
def hiMergedBytes : List Nat :=
  encodeDoc (mergeDocs [("a.docx", ⟨[.para "Normal" "Hi"], []⟩)] true true)

theorem c8_no_mutation_witness :
    merge_word_documents [hiFile] true true false =
      .ok (hiMergedBytes, [⟨"a.docx", hiFile.content, 0⟩],
        [.processed 0]) ∧
      [UploadedFile.mk "a.docx" hiFile.content 0] =
        [hiFile].map (fun f => { f with pos := 0 }) :=
  ⟨by decide,
    c8_no_mutation [hiFile] true true false hiMergedBytes
      [⟨"a.docx", hiFile.content, 0⟩] [.processed 0] (by decide)⟩

theorem firstNoneIdx_some :
    ∀ (files : List UploadedFile) (j : Nat),
      firstNoneIdx files = some j →
      ∃ hj : j < files.length,
        decodeDoc ((files.get ⟨j, hj⟩).content) = none := by
  intro files
  induction files with
  | nil => intro j h; exact absurd h (by simp [firstNoneIdx])
  | cons f rest ih =>
    intro j h
    cases hdf : decodeDoc f.content with
    | none =>
      simp only [firstNoneIdx, hdf, Option.some.injEq] at h
      subst h
      exact ⟨by simp, hdf⟩
    | some doc =>
      simp only [firstNoneIdx, hdf, Option.map_eq_some'] at h
      obtain ⟨j1, hj1, rfl⟩ := h
      obtain ⟨hlt, hdec⟩ := ih j1 hj1
      exact ⟨by simpa using Nat.succ_lt_succ hlt, by simpa using hdec⟩

theorem mergeAux_error_at_first (total : Nat) (ks ki bar : Bool) :
    ∀ (rest : List UploadedFile) (idx : Nat) (acc : Doc)
      (done : List UploadedFile) (evs : List Event) (j : Nat),
      (∀ f ∈ rest, f.pos = 0) →
      firstNoneIdx rest = some j →
      mergeAux total ks ki bar idx acc done evs rest =
        .error (.malformedInput (idx + j)) := by
  intro rest
  induction rest with
  | nil => intro idx acc done evs j _ hj; exact absurd hj (by simp [firstNoneIdx])
  | cons f rest ih =>
    intro idx acc done evs j h0 hj
    have hread : (fileRead f).1 = f.content := by
      simp [fileRead, h0 f (by simp)]
    cases hdf : decodeDoc f.content with
    | none =>
      simp only [firstNoneIdx, hdf, Option.some.injEq] at hj
      subst hj
      simp only [mergeAux, hread, hdf, Nat.add_zero]
    | some doc =>
      simp only [firstNoneIdx, hdf, Option.map_eq_some'] at hj
      obtain ⟨j1, hj1, rfl⟩ := hj
      simp only [mergeAux, hread, hdf]
      rw [ih (idx + 1) (processDoc acc f.name doc ks ki) _ _ j1
        (fun g hg => h0 g (by simp [hg])) hj1]
      have harith : idx + 1 + j1 = idx + (j1 + 1) := by omega
      rw [harith]

/-- C3: if any input buffer fails to parse as a document package, the
merge aborts with a malformed-input failure naming the first failing
input's position, and returns no output buffer; the named input indeed
fails to parse. -/
theorem c3_malformed_aborts (files : List UploadedFile) (ks ki bar : Bool)
    (j : Nat) (h0 : ∀ f ∈ files, f.pos = 0)
    (hj : firstNoneIdx files = some j) :
    merge_word_documents files ks ki bar = .error (.malformedInput j) ∧
      resultBytes (merge_word_documents files ks ki bar) = none ∧
      ∃ hjl : j < files.length,
        decodeDoc ((files.get ⟨j, hjl⟩).content) = none := by
  have herr := mergeAux_error_at_first files.length ks ki bar files 0
    emptyDoc [] [] j h0 hj
  rw [Nat.zero_add] at herr
  have herr2 : merge_word_documents files ks ki bar =
      .error (.malformedInput j) := herr
  refine ⟨herr2, ?_, firstNoneIdx_some files j hj⟩
  rw [herr2]
  rfl

/-- A byte buffer that is not a well-formed document package. -/
def badFile : UploadedFile := ⟨"bad.docx", [], 0⟩

theorem c3_malformed_aborts_witness :
    (∀ f ∈ [badFile], f.pos = 0) ∧
      merge_word_documents [badFile] true true false =
        .error (.malformedInput 0) :=
  ⟨by decide,
    (c3_malformed_aborts [badFile] true true false 0 (by decide)
      (by decide)).1⟩

/-- C10: merging an empty input list raises no error — the loop body never
runs and the call returns the serialized bytes of a freshly created empty
document, with no headings and no separators (and no file states or
events). -/
theorem c10_empty_input (ks ki bar : Bool) :
    merge_word_documents [] ks ki bar = .ok (encodeDoc emptyDoc, [], []) :=
  rfl

/-- C9 counterexample: merging one valid input with a progress bar emits
the progress update `1/1` BEFORE that input's processing completes — the
trace is `[progress 1 1, processed 0]`, not `[processed 0, progress 1 1]`
as it would be if the callback ran only after the input was fully
processed. -/
theorem c9_counterexample :
    resultEvents (merge_word_documents [hiFile] false false true) =
        some [.progress 1 1, .processed 0] ∧
      some [Event.progress 1 1, Event.processed 0] ≠
        some [Event.processed 0, Event.progress 1 1] := by decide

/-- C9 (amended): when a progress bar is supplied and every input is valid,
the callback is invoked exactly once per input, at the START of that
input's iteration (before the input is processed), with the value
`(k)/N` for the k-th input of N — the trace interleaves
`progress (k+1) N` immediately before `processed k` for each k — and
supplying or omitting the callback changes neither the output bytes nor
the final file states. -/
theorem c9_progress_amended (files : List UploadedFile) (ks ki : Bool)
    (h : ∀ f ∈ files, f.pos = 0 ∧ (decodeDoc f.content).isSome) :
    resultEvents (merge_word_documents files ks ki true) =
        some (traceFrom true files.length 0 files.length) ∧
      resultBytes (merge_word_documents files ks ki true) =
        resultBytes (merge_word_documents files ks ki false) ∧
      resultFiles (merge_word_documents files ks ki true) =
        resultFiles (merge_word_documents files ks ki false) := by
  have ht := mergeAux_ok_full files.length ks ki true files 0 emptyDoc
    [] [] h
  have hf := mergeAux_ok_full files.length ks ki false files 0 emptyDoc
    [] [] h
  have ht2 : merge_word_documents files ks ki true =
      .ok (encodeDoc (files.foldl
          (fun m f => processDoc m f.name
            ((decodeDoc f.content).getD emptyDoc) ks ki) emptyDoc),
        [] ++ files.map (fun f => { f with pos := 0 }),
        [] ++ traceFrom true files.length 0 files.length) := ht
  have hf2 : merge_word_documents files ks ki false =
      .ok (encodeDoc (files.foldl
          (fun m f => processDoc m f.name
            ((decodeDoc f.content).getD emptyDoc) ks ki) emptyDoc),
        [] ++ files.map (fun f => { f with pos := 0 }),
        [] ++ traceFrom false files.length 0 files.length) := hf
  rw [ht2, hf2]
  simp [resultEvents, resultBytes, resultFiles]

theorem c9_progress_amended_witness :
    (∀ f ∈ [hiFile], f.pos = 0 ∧ (decodeDoc f.content).isSome) ∧
      resultEvents (merge_word_documents [hiFile] true true true) =
        some (traceFrom true 1 0 1) :=
  ⟨by decide, (c9_progress_amended [hiFile] true true (by decide)).1⟩
